import Mathlib

namespace Scr

/--
Verification development for the scr tape-script parser and execution engine.
Go strings are modelled as lists of bytes (Nat values below 256); Go ints and
time.Duration values as Int (nanoseconds for durations).
-/
def bytes (s : String) : List Nat :=
  s.data.map Char.toNat

/-- Byte-wise ASCII lowering. Models strings.ToLower on the ASCII strings this
program manipulates (identifiers, key names and messages are ASCII). -/
def goToLower (s : List Nat) : List Nat :=
  s.map (fun c => if 65 ≤ c ∧ c ≤ 90 then c + 32 else c)

/-- Models unicode.IsLetter(rune(ch)) || ch == 0x5f for a byte ch, as used by
isLetter in parser.go: ASCII letters, underscore, and the Latin-1 letters
(0xaa, 0xb5, 0xba, 0xc0-0xd6, 0xd8-0xf6, 0xf8-0xff). -/
def goIsLetter (c : Nat) : Bool :=
  (decide (65 ≤ c) && decide (c ≤ 90)) || (decide (97 ≤ c) && decide (c ≤ 122)) ||
  c == 95 || c == 170 || c == 181 || c == 186 ||
  (decide (192 ≤ c) && decide (c ≤ 214)) || (decide (216 ≤ c) && decide (c ≤ 246)) ||
  (decide (248 ≤ c) && decide (c ≤ 255))

/-- Models unicode.IsDigit(rune(ch)) for a byte ch (isDigit in parser.go):
only the ASCII digits 0-9 in the byte range. -/
def goIsDigit (c : Nat) : Bool :=
  decide (48 ≤ c) && decide (c ≤ 57)

/-- A byte that readIdent of the lexer keeps consuming: letter, digit or the plus sign. -/
def isIdentByte (c : Nat) : Bool :=
  goIsLetter c || goIsDigit c || c == 43

/-- Whitespace skipped by the lexer: space, tab, newline, carriage return. -/
def isWS (c : Nat) : Bool :=
  c == 32 || c == 9 || c == 10 || c == 13

/-- Decimal digits of a Nat as bytes, for rendering the %d format verb. -/
def natDecBytes (n : Nat) : List Nat :=
  (Nat.toDigits 10 n).map Char.toNat

/-- One byte under the Go %q string quoting (strconv escaping): printable ASCII
kept as is, quote and backslash escaped, the named control escapes, and a
two-digit hex escape otherwise.  Bytes at or above 0x80 are rendered with hex
escapes, which matches Go on the lone non-ASCII bytes this program can see. -/
def quoteByte (c : Nat) : List Nat :=
  if c = 34 then [92, 34]
  else if c = 92 then [92, 92]
  else if 32 ≤ c ∧ c ≤ 126 then [c]
  else if c = 7 then [92, 97]
  else if c = 8 then [92, 98]
  else if c = 9 then [92, 116]
  else if c = 10 then [92, 110]
  else if c = 11 then [92, 118]
  else if c = 12 then [92, 102]
  else if c = 13 then [92, 114]
  else [92, 120, (if c / 16 % 16 < 10 then 48 + c / 16 % 16 else 87 + c / 16 % 16),
        (if c % 16 < 10 then 48 + c % 16 else 87 + c % 16)]

/-- The Go %q verb applied to a byte string. -/
def goQuote (s : List Nat) : List Nat :=
  34 :: (s.foldr (fun c acc => quoteByte c ++ acc) [] ++ [34])

/-- Token kinds of the tape-script lexer (parser.go). -/
inductive TokenKind where
  | tokenEOF
  | tokenIdent
  | tokenString
  | tokenNumber
  | tokenDuration
  | tokenAt
  | tokenPlus
deriving DecidableEq

/-- A lexical token: kind, literal bytes and zero-based byte position. -/
structure Token where
  kind : TokenKind
  literal : List Nat
  position : Nat
deriving DecidableEq

/-- The whole token stream of a script, ending in exactly one EOF token.
Mirrors repeated lexer.nextToken calls: whitespace skipped, at and plus as
single tokens, quoted strings copied without escapes (a missing closing quote
still advances past the end, hence the +2 in the EOF position), digit runs
with an ms or s suffix as durations and otherwise numbers, letter-led runs of
letters, digits and plus signs as identifiers, and unknown bytes skipped. -/
def tokenizeAux : Nat → List Nat → Nat → List Token
  | 0, _, off => [⟨.tokenEOF, [], off⟩]
  | _ + 1, [], off => [⟨.tokenEOF, [], off⟩]
  | fuel + 1, c :: rest, off =>
    if isWS c then tokenizeAux fuel rest (off + 1)
    else if c = 64 then ⟨.tokenAt, [64], off⟩ :: tokenizeAux fuel rest (off + 1)
    else if c = 43 then ⟨.tokenPlus, [43], off⟩ :: tokenizeAux fuel rest (off + 1)
    else if c = 39 ∨ c = 34 then
      let lit := rest.takeWhile (fun b => b ≠ c)
      let rem := rest.drop lit.length
      if rem.isEmpty then [⟨.tokenString, lit, off⟩, ⟨.tokenEOF, [], off + lit.length + 2⟩]
      else ⟨.tokenString, lit, off⟩ :: tokenizeAux fuel rem.tail (off + lit.length + 2)
    else if goIsDigit c then
      let ds := c :: rest.takeWhile goIsDigit
      let rem := rest.drop (rest.takeWhile goIsDigit).length
      let ex : Nat := if rem.take 2 = [109, 115] then 2 else if rem.take 1 = [115] then 1 else 0
      ⟨(if ex = 0 then TokenKind.tokenNumber else TokenKind.tokenDuration), ds ++ rem.take ex, off⟩ ::
        tokenizeAux fuel (rem.drop ex) (off + ds.length + ex)
    else if goIsLetter c then
      let lit := c :: rest.takeWhile isIdentByte
      ⟨.tokenIdent, lit, off⟩ ::
        tokenizeAux fuel (rest.drop (rest.takeWhile isIdentByte).length) (off + lit.length)
    else tokenizeAux fuel rest (off + 1)

/-- The token stream of a script: tokenizeAux driven by fuel equal to the
input length.  Every recursive step consumes at least one input byte while
spending exactly one unit of fuel, so the zero-fuel case is reached only on
exhausted input, where it returns the same EOF token as the empty case. -/
def tokenize (s : List Nat) (off : Nat) : List Token :=
  tokenizeAux s.length s off

/-- isAlphanumeric from internal/input/keypress.go: exactly one byte that is
an ASCII letter or digit. -/
def isAlphanumeric (key : List Nat) : Bool :=
  match key with
  | [c] =>
    (decide (97 ≤ c) && decide (c ≤ 122)) || (decide (65 ≤ c) && decide (c ≤ 90)) ||
    (decide (48 ≤ c) && decide (c ≤ 57))
  | _ => false

/-- The specialKeyMap of KeyToKeyCode in internal/input/keypress.go, as an
association list (map lookup order is irrelevant since keys are distinct). -/
def specialKeyMap : List (List Nat × List Nat) :=
  [(bytes "enter", bytes "Enter"),
   (bytes "escape", bytes "Escape"),
   (bytes "tab", bytes "Tab"),
   (bytes "up", bytes "ArrowUp"),
   (bytes "down", bytes "ArrowDown"),
   (bytes "left", bytes "ArrowLeft"),
   (bytes "right", bytes "ArrowRight"),
   (bytes "home", bytes "Home"),
   (bytes "end", bytes "End"),
   (bytes "backspace", bytes "Backspace"),
   (bytes "delete", bytes "Delete"),
   (bytes "ctrl+c", bytes "c"),
   (bytes "ctrl+d", bytes "d")]

/-- KeyToKeyCode from internal/input/keypress.go: alphanumeric single bytes
come back as is, otherwise the lowercased key is looked up in specialKeyMap,
and an unrecognized key is an error. -/
def KeyToKeyCode (key : List Nat) : Except Unit (List Nat) :=
  if isAlphanumeric key then .ok key
  else
    match specialKeyMap.lookup (goToLower key) with
    | some code => .ok code
    | none => .error ()

/-- Numeric value of a digit-byte string, most significant first. -/
def digitsVal (ds : List Nat) : Nat :=
  ds.foldl (fun a c => a * 10 + (c - 48)) 0

/-- Models time.ParseDuration restricted to the literals the lexer can
produce: a nonempty digit run, optionally suffixed with ms or s.  The exact
literal 0 parses as the zero duration; any other unitless digit run is an
error (missing unit); a suffixed run yields the value in nanoseconds unless
the int64 overflow checks of ParseDuration trip.  This is the parseDuration
helper of parser.go.  Literals outside this sublanguage never reach it. -/
def parseDuration (s : List Nat) : Except Unit Int :=
  if s.takeWhile goIsDigit = [] then .error ()
  else if s.drop (s.takeWhile goIsDigit).length = [] then
    if s = [48] then .ok 0 else .error ()
  else if s.drop (s.takeWhile goIsDigit).length = [109, 115] then
    if digitsVal (s.takeWhile goIsDigit) ≤ 9223372036854 then
      .ok (digitsVal (s.takeWhile goIsDigit) * 1000000)
    else .error ()
  else if s.drop (s.takeWhile goIsDigit).length = [115] then
    if digitsVal (s.takeWhile goIsDigit) ≤ 9223372036 then
      .ok (digitsVal (s.takeWhile goIsDigit) * 1000000000)
    else .error ()
  else .error ()

/-- Models strconv.Atoi on the digit-only literals of tokenNumber tokens
(64-bit int): the value, or a range error above the int64 maximum. -/
def atoiDigits (s : List Nat) : Except Unit Int :=
  if digitsVal s ≤ 9223372036854775807 then .ok (digitsVal s) else .error ()

/-- ActionKind from internal/script/action.go. -/
inductive ActionKind where
  | ActionType
  | ActionSleep
  | ActionKey
  | ActionCtrl
deriving DecidableEq

/-- Action from internal/script/action.go: one struct with every field
inlined, unused fields left at their zero values, as in the source. -/
structure Action where
  Kind : ActionKind
  Text : List Nat := []
  Key : List Nat := []
  Duration : Int := 0
  Speed : Int := 0
  Delay : Int := 0
  Repeat : Int := 0
deriving DecidableEq

/-- ParseError from internal/script/parser.go. -/
structure ParseError where
  Position : Nat
  Message : List Nat
deriving DecidableEq

/-- The enumerated key-name list embedded in the unknown-key message. -/
def validKeyListBytes : List Nat :=
  bytes "Enter, Tab, Escape, Space, Backspace, Delete, Up, Down, Left, Right, Home, End, PageUp, PageDown, Ctrl+C, Ctrl+D, Ctrl+L, Ctrl+Z"

/-- Message of the unexpected-token error in parseAction (%s of the literal). -/
def msgExpectedCmd (lit : List Nat) : List Nat :=
  bytes "expected command or key, got " ++ lit

/-- Message after an at sign with no duration. -/
def msgExpectedDurAt : List Nat :=
  bytes "expected duration after @"

/-- Message after Sleep with no duration. -/
def msgExpectedDurSleep : List Nat :=
  bytes "expected duration after Sleep"

/-- Message when Type is not followed by a quoted string. -/
def msgExpectedQuoted : List Nat :=
  bytes "expected quoted string after Type"

/-- Message for a literal that fails duration parsing (%q of the literal);
the hint quotes 500ms and 2s in single quotes. -/
def msgInvalidDur (lit : List Nat) : List Nat :=
  bytes "invalid duration " ++ goQuote lit ++ bytes "; use " ++ [39] ++ bytes "500ms" ++ [39] ++
    bytes " or " ++ [39] ++ bytes "2s" ++ [39]

/-- Message for an unknown key (%q of the key), listing every valid key name. -/
def msgUnknownKey (key : List Nat) : List Nat :=
  bytes "unknown key " ++ goQuote key ++ bytes "; valid keys: " ++ validKeyListBytes

/-- Message for a repeat count Atoi failure (%q of the literal). -/
def msgInvalidRepeat (lit : List Nat) : List Nat :=
  bytes "invalid repeat count " ++ goQuote lit

/-- Error method of ParseError: fmt.Sprintf of
parse error at position %d: %s. -/
def renderError (e : ParseError) : List Nat :=
  bytes "parse error at position " ++ natDecBytes e.Position ++ bytes ": " ++ e.Message

/-- validKeys from parser.go: the fourteen recognized special key names,
lowercased. -/
def validKeys : List (List Nat) :=
  [bytes "enter", bytes "tab", bytes "escape", bytes "space", bytes "backspace",
   bytes "delete", bytes "up", bytes "down", bytes "left", bytes "right",
   bytes "home", bytes "end", bytes "pageup", bytes "pagedown"]

/-- isValidKey from parser.go: membership of the lowercased key in validKeys,
or a ctrl+ combination of total length six. -/
def isValidKey (key : List Nat) : Bool :=
  let lowerKey := goToLower key
  if validKeys.contains lowerKey then true
  else (bytes "ctrl+").isPrefixOf lowerKey && lowerKey.length == 6

/-- Current token of the parser (the stream always ends in an EOF token, so
the empty case is unreachable). -/
def curTok : List Token → Token
  | [] => ⟨.tokenEOF, [], 0⟩
  | t :: _ => t

/-- Advance the parser one token; at the final EOF token the lexer keeps
returning it, so the stream stays put. -/
def adv : List Token → List Token
  | [] => []
  | [t] => [t]
  | _ :: t :: ts => t :: ts

/-- parseCtrlAction from parser.go: the key is the lowercased remainder of
the identifier after the five prefix bytes; always succeeds. -/
def parseCtrlAction (ts : List Token) : Except ParseError (Action × List Token) :=
  .ok ({ Kind := .ActionCtrl, Key := goToLower ((curTok ts).literal.drop 5) }, adv ts)

/-- The at-modifier block that parseTypeAction and parseKeyAction contain
verbatim in the source: if the current token is an at sign, consume it,
require a duration-or-number token and parse it as a duration; otherwise keep
the default value unchanged. -/
def parseAtDuration (dflt : Int) (ts1 : List Token) : Except ParseError (Int × List Token) :=
  if (curTok ts1).kind = .tokenAt then
    if (curTok (adv ts1)).kind ≠ .tokenDuration ∧ (curTok (adv ts1)).kind ≠ .tokenNumber then
      .error ⟨(curTok (adv ts1)).position, msgExpectedDurAt⟩
    else
      match parseDuration (curTok (adv ts1)).literal with
      | .error _ =>
        .error ⟨(curTok (adv ts1)).position, msgInvalidDur (curTok (adv ts1)).literal⟩
      | .ok d => .ok (d, adv (adv ts1))
  else .ok (dflt, ts1)

/-- parseTypeAction from parser.go: default speed 50ms, optional at-duration
modifier, then a required quoted string. -/
def parseTypeAction (ts : List Token) : Except ParseError (Action × List Token) :=
  match parseAtDuration 50000000 (adv ts) with
  | .error e => .error e
  | .ok (sp, ts2) =>
    if (curTok ts2).kind ≠ .tokenString then .error ⟨(curTok ts2).position, msgExpectedQuoted⟩
    else .ok ({ Kind := .ActionType, Speed := sp, Text := (curTok ts2).literal }, adv ts2)

/-- parseSleepAction from parser.go: a required duration-or-number token that
must parse as a duration. -/
def parseSleepAction (ts : List Token) : Except ParseError (Action × List Token) :=
  if (curTok (adv ts)).kind ≠ .tokenDuration ∧ (curTok (adv ts)).kind ≠ .tokenNumber then
    .error ⟨(curTok (adv ts)).position, msgExpectedDurSleep⟩
  else
    match parseDuration (curTok (adv ts)).literal with
    | .error _ =>
      .error ⟨(curTok (adv ts)).position, msgInvalidDur (curTok (adv ts)).literal⟩
    | .ok d => .ok ({ Kind := .ActionSleep, Duration := d }, adv (adv ts))

/-- parseKeyAction from parser.go: validate the key name, default repeat 1,
optional at-delay modifier, optional repeat count. -/
def parseKeyAction (ts : List Token) : Except ParseError (Action × List Token) :=
  if ¬ isValidKey (curTok ts).literal then
    .error ⟨(curTok ts).position, msgUnknownKey (curTok ts).literal⟩
  else
    match parseAtDuration 0 (adv ts) with
    | .error e => .error e
    | .ok (dl, ts2) =>
      if (curTok ts2).kind = .tokenNumber then
        match atoiDigits (curTok ts2).literal with
        | .error _ => .error ⟨(curTok ts2).position, msgInvalidRepeat (curTok ts2).literal⟩
        | .ok n =>
          .ok ({ Kind := .ActionKey, Key := (curTok ts).literal, Delay := dl, Repeat := n },
               adv ts2)
      else
        .ok ({ Kind := .ActionKey, Key := (curTok ts).literal, Delay := dl, Repeat := 1 }, ts2)

/-- parseAction from parser.go: dispatch on the lowercased identifier. -/
def parseAction (ts : List Token) : Except ParseError (Action × List Token) :=
  if (curTok ts).kind ≠ .tokenIdent then
    .error ⟨(curTok ts).position, msgExpectedCmd (curTok ts).literal⟩
  else
    if (bytes "ctrl+").isPrefixOf (goToLower (curTok ts).literal) then parseCtrlAction ts
    else if goToLower (curTok ts).literal = bytes "type" then parseTypeAction ts
    else if goToLower (curTok ts).literal = bytes "sleep" then parseSleepAction ts
    else parseKeyAction ts

/-- The top-level parse loop of Parse: while the current token is not EOF,
parse one action and append it.  The fuel argument only bounds the recursion;
parseLoopFuelMsg below is proved unreachable for the fuel Parse supplies. -/
def parseLoopFuelMsg : List Nat :=
  bytes "parse loop fuel exhausted"

def parseLoop : Nat → List Token → Except ParseError (List Action)
  | 0, _ => .error ⟨0, parseLoopFuelMsg⟩
  | fuel + 1, ts =>
    if (curTok ts).kind = .tokenEOF then .ok []
    else
      match parseAction ts with
      | .error e => .error e
      | .ok (a, ts') =>
        match parseLoop fuel ts' with
        | .error e => .error e
        | .ok acts => .ok (a :: acts)

/-- Parse from parser.go.  Matching the Go two-value return: on success the
action list and no error, on failure no action list and the error. -/
def Parse (s : List Nat) : Option (List Action) × Option ParseError :=
  match parseLoop ((tokenize s 0).length + 1) (tokenize s 0) with
  | .ok acts => (some acts, none)
  | .error e => (none, some e)

/-- Renderer calls issued over the Chrome DevTools Protocol.  The first field
is the index of the executing action in the action sequence; it is ghost
bookkeeping for stating ordering properties, not data the code carries. -/
inductive RendCall where
  | keyEvent (idx : Nat) (code : List Nat)
  | ctrlEvent (idx : Nat) (ch : List Nat)
deriving DecidableEq

/-- Action index a renderer call was issued for. -/
def RendCall.aidx : RendCall → Nat
  | .keyEvent i _ => i
  | .ctrlEvent i _ => i

/-- Errors of the execution engine.  cancelled models ctx.Err() observed at a
select on ctx.Done(); dispatch models a failed sendKeypress (key-code lookup
failure or renderer error).  The index is ghost bookkeeping as in RendCall. -/
inductive EngErr where
  | cancelled (idx : Nat)
  | dispatch (idx : Nat)
deriving DecidableEq

/-- Engine world state: how many cancellation checkpoints were passed, how
many renderer calls were made, and the log of renderer calls in order. -/
structure EngSt where
  cp : Nat := 0
  rc : Nat := 0
  log : List RendCall := []
deriving DecidableEq

/-- Oracles abstracting the environment: cancelled n tells whether the n-th
select on ctx.Done() observes cancellation, rendOk n whether the n-th
renderer call succeeds.  This replaces real time and the real browser. -/
structure EngCfg where
  cancelled : Nat → Bool
  rendOk : Nat → Bool

/-- One select on ctx.Done() (against time.After or a default branch): either
the engine returns ctx.Err() or execution continues. -/
def ckpt (cfg : EngCfg) (st : EngSt) (idx : Nat) : Except (EngErr × EngSt) EngSt :=
  let st1 : EngSt := { st with cp := st.cp + 1 }
  if cfg.cancelled st.cp then .error (.cancelled idx, st1) else .ok st1

/-- One renderer call: always issued (logged), failing when the oracle says
chromedp.Run returned an error. -/
def rendCall (cfg : EngCfg) (st : EngSt) (idx : Nat) (call : RendCall) :
    Except (EngErr × EngSt) EngSt :=
  let st1 : EngSt := { st with rc := st.rc + 1, log := st.log ++ [call] }
  if cfg.rendOk st.rc then .ok st1 else .error (.dispatch idx, st1)

/-- isCtrlKey from the capture engine: lowercased key starts with ctrl+ and
has total length six. -/
def isCtrlKey (key : List Nat) : Bool :=
  let lowerKey := goToLower key
  (bytes "ctrl+").isPrefixOf lowerKey && lowerKey.length == 6

/-- sendCtrlKeypress from the capture engine: re-validate the ctrl format,
then send the trailing character with the Ctrl modifier. -/
def sendCtrlKeypress (cfg : EngCfg) (st : EngSt) (idx : Nat) (key : List Nat) :
    Except (EngErr × EngSt) EngSt :=
  if ¬ ((bytes "ctrl+").isPrefixOf (goToLower key) && (goToLower key).length == 6) = true then
    .error (.dispatch idx, st)
  else rendCall cfg st idx (.ctrlEvent idx ((goToLower key).drop 5))

/-- sendKeypress from the capture engine: ctrl combinations go through
sendCtrlKeypress; other keys are mapped by KeyToKeyCode (a lookup failure
aborts before any renderer call) and sent as a key event. -/
def sendKeypress (cfg : EngCfg) (st : EngSt) (idx : Nat) (key : List Nat) :
    Except (EngErr × EngSt) EngSt :=
  if isCtrlKey key then sendCtrlKeypress cfg st idx key
  else
    match KeyToKeyCode key with
    | .error _ => .error (.dispatch idx, st)
    | .ok code => rendCall cfg st idx (.keyEvent idx code)

/-- Sequencing with early error return, the Go if err != nil return err
idiom threaded through every engine step. -/
def ebind (r : Except (EngErr × EngSt) EngSt)
    (g : EngSt → Except (EngErr × EngSt) EngSt) : Except (EngErr × EngSt) EngSt :=
  match r with
  | .error e => .error e
  | .ok st1 => g st1

/-- The per-character loop of executeTypeAction: cancellation check, one
keypress for the character, then a cancellable per-character wait when the
speed is positive.  Text is iterated per byte, which agrees with the Go
per-rune iteration on the ASCII text of the claims. -/
def typeChars (cfg : EngCfg) (idx : Nat) (speed : Int) :
    List Nat → EngSt → Except (EngErr × EngSt) EngSt
  | [], st => .ok st
  | ch :: more, st =>
    ebind (ckpt cfg st idx) (fun st1 =>
      ebind (sendKeypress cfg st1 idx [ch]) (fun st2 =>
        if 0 < speed then
          ebind (ckpt cfg st2 idx) (fun st3 => typeChars cfg idx speed more st3)
        else typeChars cfg idx speed more st2))

/-- executeTypeAction from the capture engine: type every character, then a
cancellable post-action delay when positive. -/
def executeTypeAction (cfg : EngCfg) (idx : Nat) (a : Action) (st : EngSt) :
    Except (EngErr × EngSt) EngSt :=
  ebind (typeChars cfg idx a.Speed a.Text st) (fun st1 =>
    if 0 < a.Delay then ckpt cfg st1 idx else .ok st1)

/-- executeSleepAction from the capture engine: one cancellable wait. -/
def executeSleepAction (cfg : EngCfg) (idx : Nat) (st : EngSt) :
    Except (EngErr × EngSt) EngSt :=
  ckpt cfg st idx

/-- The repeat loop of executeKeyAction: cancellation check then one
keypress, n times. -/
def keyReps (cfg : EngCfg) (idx : Nat) (key : List Nat) :
    Nat → EngSt → Except (EngErr × EngSt) EngSt
  | 0, st => .ok st
  | n + 1, st =>
    ebind (ckpt cfg st idx) (fun st1 =>
      ebind (sendKeypress cfg st1 idx key) (fun st2 => keyReps cfg idx key n st2))

/-- executeKeyAction from the capture engine: a repeat count at most zero is
clamped to one, then the repeat loop, then a cancellable post-action delay
when positive. -/
def executeKeyAction (cfg : EngCfg) (idx : Nat) (a : Action) (st : EngSt) :
    Except (EngErr × EngSt) EngSt :=
  ebind (keyReps cfg idx a.Key (if a.Repeat ≤ 0 then (1 : Int) else a.Repeat).toNat st)
    (fun st1 => if 0 < a.Delay then ckpt cfg st1 idx else .ok st1)

/-- executeCtrlAction from the capture engine: a single ctrl keypress built
from the stored key, no repeat and no delay. -/
def executeCtrlAction (cfg : EngCfg) (idx : Nat) (a : Action) (st : EngSt) :
    Except (EngErr × EngSt) EngSt :=
  sendCtrlKeypress cfg st idx (bytes "ctrl+" ++ a.Key)

/-- executeSingleAction from the capture engine (the action kind is an
exhaustive enumeration here, so the unknown-kind branch of the Go switch is
unrepresentable). -/
def executeSingleAction (cfg : EngCfg) (idx : Nat) (a : Action) (st : EngSt) :
    Except (EngErr × EngSt) EngSt :=
  match a.Kind with
  | .ActionType => executeTypeAction cfg idx a st
  | .ActionSleep => executeSleepAction cfg idx st
  | .ActionKey => executeKeyAction cfg idx a st
  | .ActionCtrl => executeCtrlAction cfg idx a st

/-- The action loop of executeActions: each action in order, aborting on the
first error. -/
def execFrom (cfg : EngCfg) : List Action → Nat → EngSt → Except (EngErr × EngSt) EngSt
  | [], _, st => .ok st
  | a :: rest, idx, st =>
    ebind (executeSingleAction cfg idx a st) (fun st1 => execFrom cfg rest (idx + 1) st1)

/-- executeActions from the capture engine, started on a fresh state. -/
def executeActions (cfg : EngCfg) (acts : List Action) : Except (EngErr × EngSt) EngSt :=
  execFrom cfg acts 0 {}

/-- Invariant of token streams handed to the parser: the stream ends with an
EOF token (tokenize always appends one). -/
def endsEOF (ts : List Token) : Prop :=
  ∃ pre t, ts = pre ++ [t] ∧ t.kind = TokenKind.tokenEOF

theorem adv_mem {ts : List Token} {t : Token} (h : t ∈ adv ts) : t ∈ ts := by
  match ts with
  | [] => simp [adv] at h
  | [a] => simpa [adv] using h
  | a :: b :: r => exact List.mem_cons_of_mem a (by simpa [adv] using h)

theorem adv_len_le (ts : List Token) : (adv ts).length ≤ ts.length := by
  match ts with
  | [] => simp [adv]
  | [a] => simp [adv]
  | a :: b :: r => simp [adv]

theorem adv_len_lt {ts : List Token} (h : 2 ≤ ts.length) : (adv ts).length < ts.length := by
  match ts with
  | [] => simp at h
  | [a] => simp at h
  | a :: b :: r => simp [adv]

theorem adv_endsEOF {ts : List Token} (h : endsEOF ts) : endsEOF (adv ts) := by
  obtain ⟨pre, t, rfl, hk⟩ := h
  cases pre with
  | nil => exact ⟨[], t, rfl, hk⟩
  | cons p pre2 =>
    cases hpt : pre2 ++ [t] with
    | nil => simp at hpt
    | cons b r =>
      rw [List.cons_append, hpt]
      show endsEOF (adv (p :: b :: r))
      simp only [adv]
      rw [← hpt]
      exact ⟨pre2, t, rfl, hk⟩

theorem curTok_mem {ts : List Token} (h : ts ≠ []) : curTok ts ∈ ts := by
  match ts with
  | [] => exact absurd rfl h
  | a :: r => simp [curTok]

theorem endsEOF_ne_nil {ts : List Token} (h : endsEOF ts) : ts ≠ [] := by
  obtain ⟨pre, t, rfl, _⟩ := h
  simp

theorem endsEOF_two {ts : List Token} (h : endsEOF ts)
    (hk : (curTok ts).kind ≠ TokenKind.tokenEOF) : 2 ≤ ts.length := by
  obtain ⟨pre, t, rfl, hke⟩ := h
  cases pre with
  | nil => exact absurd (by simpa [curTok] using hke) hk
  | cons p pre2 => simp

/-- The message taxonomy of the parser: every ParseError message the code can
construct has one of these seven shapes. -/
def Taxonomy (m : List Nat) : Prop :=
  (∃ l, m = msgExpectedCmd l) ∨ m = msgExpectedDurAt ∨ m = msgExpectedDurSleep ∨
  m = msgExpectedQuoted ∨ (∃ l, m = msgInvalidDur l) ∨ (∃ k, m = msgUnknownKey k) ∨
  (∃ l, m = msgInvalidRepeat l)

theorem parseAtDuration_ok {d : Int} {ts1 : List Token} {v : Int} {ts2 : List Token}
    (h : parseAtDuration d ts1 = .ok (v, ts2)) :
    (∀ t, t ∈ ts2 → t ∈ ts1) ∧ ts2.length ≤ ts1.length ∧ (endsEOF ts1 → endsEOF ts2) := by
  unfold parseAtDuration at h
  split at h
  · split at h
    · exact absurd h (by simp)
    · split at h
      · exact absurd h (by simp)
      · simp only [Except.ok.injEq, Prod.mk.injEq] at h
        obtain ⟨-, h2⟩ := h
        subst h2
        exact ⟨fun t ht => adv_mem (adv_mem ht),
               le_trans (adv_len_le _) (adv_len_le _),
               fun he => adv_endsEOF (adv_endsEOF he)⟩
  · simp only [Except.ok.injEq, Prod.mk.injEq] at h
    obtain ⟨-, h2⟩ := h
    subst h2
    exact ⟨fun t ht => ht, le_refl _, fun he => he⟩

theorem parseAtDuration_err {d : Int} {ts1 : List Token} {e : ParseError}
    (h : parseAtDuration d ts1 = .error e) :
    e.Message = msgExpectedDurAt ∨ ∃ l, e.Message = msgInvalidDur l := by
  unfold parseAtDuration at h
  split at h
  · split at h
    · simp only [Except.error.injEq] at h
      exact Or.inl (by rw [← h])
    · split at h
      · simp only [Except.error.injEq] at h
        exact Or.inr ⟨_, by rw [← h]⟩
      · exact absurd h (by simp)
  · exact absurd h (by simp)

theorem curTok_kind_ne_nil {ts : List Token} (h : (curTok ts).kind ≠ TokenKind.tokenEOF) :
    ts ≠ [] := by
  intro he
  subst he
  exact h rfl

theorem atoiDigits_nonneg {s : List Nat} {n : Int} (h : atoiDigits s = .ok n) : 0 ≤ n := by
  unfold atoiDigits at h
  split at h
  · simp only [Except.ok.injEq] at h
    exact h ▸ Int.natCast_nonneg _
  · simp at h

theorem parseCtrlAction_ok {ts : List Token} {a : Action} {ts2 : List Token}
    (h : parseCtrlAction ts = .ok (a, ts2)) :
    a = { Kind := .ActionCtrl, Key := goToLower ((curTok ts).literal.drop 5) } ∧ ts2 = adv ts := by
  simp only [parseCtrlAction, Except.ok.injEq, Prod.mk.injEq] at h
  exact ⟨h.1.symm, h.2.symm⟩

theorem parseTypeAction_ok {ts : List Token} {a : Action} {ts3 : List Token}
    (h : parseTypeAction ts = .ok (a, ts3)) :
    a.Kind = .ActionType ∧ (∀ t, t ∈ ts3 → t ∈ ts) ∧ ts3.length ≤ (adv ts).length ∧
    (endsEOF ts → endsEOF ts3) := by
  unfold parseTypeAction at h
  split at h
  · simp at h
  · rename_i sp ts2 heq
    split at h
    · simp at h
    · simp only [Except.ok.injEq, Prod.mk.injEq] at h
      obtain ⟨ha, h2⟩ := h
      subst h2
      obtain ⟨hsub, hlen, hend⟩ := parseAtDuration_ok heq
      refine ⟨by rw [← ha], ?_, ?_, ?_⟩
      · intro t ht
        exact adv_mem (hsub _ (adv_mem ht))
      · exact le_trans (le_trans (adv_len_le _) hlen) (le_refl _)
      · intro he
        exact adv_endsEOF (hend (adv_endsEOF he))

theorem parseSleepAction_ok {ts : List Token} {a : Action} {ts2 : List Token}
    (h : parseSleepAction ts = .ok (a, ts2)) :
    a.Kind = .ActionSleep ∧ (∀ t, t ∈ ts2 → t ∈ ts) ∧ ts2.length ≤ (adv ts).length ∧
    (endsEOF ts → endsEOF ts2) := by
  unfold parseSleepAction at h
  split at h
  · simp at h
  · split at h
    · simp at h
    · simp only [Except.ok.injEq, Prod.mk.injEq] at h
      obtain ⟨ha, h2⟩ := h
      subst h2
      refine ⟨by rw [← ha], ?_, adv_len_le _, ?_⟩
      · intro t ht
        exact adv_mem (adv_mem ht)
      · intro he
        exact adv_endsEOF (adv_endsEOF he)

theorem parseKeyAction_ok {ts : List Token} {a : Action} {ts3 : List Token}
    (h : parseKeyAction ts = .ok (a, ts3)) :
    a.Kind = .ActionKey ∧ 0 ≤ a.Repeat ∧ (∀ t, t ∈ ts3 → t ∈ ts) ∧
    ts3.length ≤ (adv ts).length ∧ (endsEOF ts → endsEOF ts3) := by
  unfold parseKeyAction at h
  split at h
  · simp at h
  · split at h
    · simp at h
    · rename_i dl ts2 heq
      obtain ⟨hsub, hlen, hend⟩ := parseAtDuration_ok heq
      split at h
      · split at h
        · simp at h
        · rename_i n hatoi
          simp only [Except.ok.injEq, Prod.mk.injEq] at h
          obtain ⟨ha, h2⟩ := h
          subst h2
          refine ⟨by rw [← ha], by rw [← ha]; exact atoiDigits_nonneg hatoi, ?_, ?_, ?_⟩
          · intro t ht
            exact adv_mem (hsub _ (adv_mem ht))
          · exact le_trans (adv_len_le _) hlen
          · intro he
            exact adv_endsEOF (hend (adv_endsEOF he))
      · simp only [Except.ok.injEq, Prod.mk.injEq] at h
        obtain ⟨ha, h2⟩ := h
        subst h2
        refine ⟨by rw [← ha], by rw [← ha]; exact zero_le_one, ?_, hlen, ?_⟩
        · intro t ht
          exact adv_mem (hsub _ ht)
        · intro he
          exact hend (adv_endsEOF he)

theorem parseTypeAction_err {ts : List Token} {e : ParseError}
    (h : parseTypeAction ts = .error e) :
    e.Message = msgExpectedDurAt ∨ (∃ l, e.Message = msgInvalidDur l) ∨
    e.Message = msgExpectedQuoted := by
  unfold parseTypeAction at h
  split at h
  · rename_i e0 heq
    simp only [Except.error.injEq] at h
    subst h
    rcases parseAtDuration_err heq with h1 | h1
    · exact Or.inl h1
    · exact Or.inr (Or.inl h1)
  · split at h
    · simp only [Except.error.injEq] at h
      exact Or.inr (Or.inr (by rw [← h]))
    · simp at h

theorem parseSleepAction_err {ts : List Token} {e : ParseError}
    (h : parseSleepAction ts = .error e) :
    e.Message = msgExpectedDurSleep ∨ ∃ l, e.Message = msgInvalidDur l := by
  unfold parseSleepAction at h
  split at h
  · simp only [Except.error.injEq] at h
    exact Or.inl (by rw [← h])
  · split at h
    · simp only [Except.error.injEq] at h
      exact Or.inr ⟨_, by rw [← h]⟩
    · simp at h

theorem parseKeyAction_err {ts : List Token} {e : ParseError}
    (h : parseKeyAction ts = .error e) :
    (∃ k, e.Message = msgUnknownKey k) ∨ e.Message = msgExpectedDurAt ∨
    (∃ l, e.Message = msgInvalidDur l) ∨ ∃ l, e.Message = msgInvalidRepeat l := by
  unfold parseKeyAction at h
  split at h
  · simp only [Except.error.injEq] at h
    exact Or.inl ⟨_, by rw [← h]⟩
  · split at h
    · rename_i e0 heq
      simp only [Except.error.injEq] at h
      subst h
      rcases parseAtDuration_err heq with h1 | h1
      · exact Or.inr (Or.inl h1)
      · exact Or.inr (Or.inr (Or.inl h1))
    · split at h
      · split at h
        · simp only [Except.error.injEq] at h
          exact Or.inr (Or.inr (Or.inr ⟨_, by rw [← h]⟩))
        · simp at h
      · simp at h

theorem parseAction_ok {ts : List Token} {a : Action} {ts2 : List Token}
    (h : parseAction ts = .ok (a, ts2)) :
    (curTok ts).kind = TokenKind.tokenIdent ∧
    (a.Kind = ActionKind.ActionCtrl →
      (bytes "ctrl+").isPrefixOf (goToLower (curTok ts).literal) = true ∧
      a.Key = goToLower ((curTok ts).literal.drop 5)) ∧
    (a.Kind = ActionKind.ActionKey → 0 ≤ a.Repeat) ∧
    (∀ t, t ∈ ts2 → t ∈ ts) ∧ ts2.length ≤ (adv ts).length ∧
    (endsEOF ts → endsEOF ts2) := by
  unfold parseAction at h
  split at h
  · simp at h
  · rename_i hident
    rw [not_not] at hident
    split at h
    · rename_i hpfx
      obtain ⟨ha, hts⟩ := parseCtrlAction_ok h
      subst hts
      refine ⟨hident, ?_, ?_, fun t ht => adv_mem ht, le_refl _, fun he => adv_endsEOF he⟩
      · intro _
        exact ⟨hpfx, by rw [ha]⟩
      · intro hk
        rw [ha] at hk
        simp at hk
    · split at h
      · obtain ⟨hk, hsub, hlen, hend⟩ := parseTypeAction_ok h
        refine ⟨hident, ?_, ?_, hsub, hlen, hend⟩
        · intro hc
          rw [hk] at hc
          simp at hc
        · intro hc
          rw [hk] at hc
          simp at hc
      · split at h
        · obtain ⟨hk, hsub, hlen, hend⟩ := parseSleepAction_ok h
          refine ⟨hident, ?_, ?_, hsub, hlen, hend⟩
          · intro hc
            rw [hk] at hc
            simp at hc
          · intro hc
            rw [hk] at hc
            simp at hc
        · obtain ⟨hk, hrep, hsub, hlen, hend⟩ := parseKeyAction_ok h
          refine ⟨hident, ?_, fun _ => hrep, hsub, hlen, hend⟩
          intro hc
          rw [hk] at hc
          simp at hc

theorem parseAction_err {ts : List Token} {e : ParseError}
    (h : parseAction ts = .error e) : Taxonomy e.Message := by
  unfold parseAction at h
  split at h
  · simp only [Except.error.injEq] at h
    exact Or.inl ⟨_, by rw [← h]⟩
  · split at h
    · simp only [parseCtrlAction] at h
      simp at h
    · split at h
      · rcases parseTypeAction_err h with h1 | ⟨l, h1⟩ | h1
        · exact Or.inr (Or.inl h1)
        · exact Or.inr (Or.inr (Or.inr (Or.inr (Or.inl ⟨l, h1⟩))))
        · exact Or.inr (Or.inr (Or.inr (Or.inl h1)))
      · split at h
        · rcases parseSleepAction_err h with h1 | ⟨l, h1⟩
          · exact Or.inr (Or.inr (Or.inl h1))
          · exact Or.inr (Or.inr (Or.inr (Or.inr (Or.inl ⟨l, h1⟩))))
        · rcases parseKeyAction_err h with ⟨k, h1⟩ | h1 | ⟨l, h1⟩ | ⟨l, h1⟩
          · exact Or.inr (Or.inr (Or.inr (Or.inr (Or.inr (Or.inl ⟨k, h1⟩)))))
          · exact Or.inr (Or.inl h1)
          · exact Or.inr (Or.inr (Or.inr (Or.inr (Or.inl ⟨l, h1⟩))))
          · exact Or.inr (Or.inr (Or.inr (Or.inr (Or.inr (Or.inr ⟨l, h1⟩)))))

theorem endsEOF_cons {l : List Token} (x : Token) (h : endsEOF l) : endsEOF (x :: l) := by
  obtain ⟨pre, t, rfl, hk⟩ := h
  exact ⟨x :: pre, t, rfl, hk⟩

theorem tokenizeAux_endsEOF : ∀ fuel (s : List Nat) off, endsEOF (tokenizeAux fuel s off) := by
  intro fuel
  induction fuel with
  | zero => intro s off; exact ⟨[], _, rfl, rfl⟩
  | succ n ih =>
    intro s off
    cases s with
    | nil => exact ⟨[], _, rfl, rfl⟩
    | cons c rest =>
      simp only [tokenizeAux]
      split_ifs
      all_goals
        first
        | exact ih _ _
        | exact endsEOF_cons _ (ih _ _)
        | exact ⟨[⟨.tokenString, _, off⟩], _, rfl, rfl⟩

theorem tokenize_endsEOF (s : List Nat) (off : Nat) : endsEOF (tokenize s off) :=
  tokenizeAux_endsEOF s.length s off

/-- The invariant every successfully parsed action satisfies, relative to the
token stream it was parsed from: the key of a Ctrl action is the lowercasing
of what follows the five-byte ctrl+ prefix of an identifier token of the
stream, and the repeat of a Key action is never negative. -/
def ActInv (ts : List Token) (a : Action) : Prop :=
  (a.Kind = ActionKind.ActionCtrl →
    ∃ t, t ∈ ts ∧ t.kind = TokenKind.tokenIdent ∧
      (bytes "ctrl+").isPrefixOf (goToLower t.literal) = true ∧
      a.Key = goToLower (t.literal.drop 5)) ∧
  (a.Kind = ActionKind.ActionKey → 0 ≤ a.Repeat)

theorem ActInv_mono {ts ts2 : List Token} {a : Action}
    (hsub : ∀ t, t ∈ ts2 → t ∈ ts) (h : ActInv ts2 a) : ActInv ts a := by
  refine ⟨?_, h.2⟩
  intro hc
  obtain ⟨t, ht, h1, h2, h3⟩ := h.1 hc
  exact ⟨t, hsub t ht, h1, h2, h3⟩

theorem parseLoop_ok_inv : ∀ fuel (ts : List Token) acts,
    parseLoop fuel ts = .ok acts → ∀ a ∈ acts, ActInv ts a := by
  intro fuel
  induction fuel with
  | zero => intro ts acts h; simp [parseLoop] at h
  | succ n ih =>
    intro ts acts h
    unfold parseLoop at h
    split at h
    · simp only [Except.ok.injEq] at h
      subst h
      intro a ha
      simp at ha
    · rename_i hke
      split at h
      · simp at h
      · rename_i a0 ts2 hpa
        split at h
        · simp at h
        · rename_i acts2 hrec
          simp only [Except.ok.injEq] at h
          subst h
          intro a ha
          rcases List.mem_cons.mp ha with rfl | ha2
          · obtain ⟨hkind, hctrl, hkey, hsub, -, -⟩ := parseAction_ok hpa
            refine ⟨?_, hkey⟩
            intro hc
            obtain ⟨hpfx, hk⟩ := hctrl hc
            have hne : ts ≠ [] := curTok_kind_ne_nil (by rw [hkind]; simp)
            exact ⟨curTok ts, curTok_mem hne, hkind, hpfx, hk⟩
          · exact ActInv_mono (parseAction_ok hpa).2.2.2.1 (ih ts2 acts2 hrec a ha2)

theorem parseLoop_err_tax : ∀ fuel (ts : List Token), endsEOF ts → ts.length ≤ fuel →
    ∀ e, parseLoop fuel ts = .error e → Taxonomy e.Message := by
  intro fuel
  induction fuel with
  | zero =>
    intro ts hend hlen e _
    exact absurd (List.length_eq_zero.mp (Nat.le_zero.mp hlen)) (endsEOF_ne_nil hend)
  | succ n ih =>
    intro ts hend hlen e h
    unfold parseLoop at h
    split at h
    · simp at h
    · rename_i hke
      split at h
      · rename_i e0 hpa
        simp only [Except.error.injEq] at h
        subst h
        exact parseAction_err hpa
      · rename_i a0 ts2 hpa
        split at h
        · rename_i e0 hrec
          simp only [Except.error.injEq] at h
          subst h
          obtain ⟨-, -, -, -, hlen2, hend2⟩ := parseAction_ok hpa
          have h2 : 2 ≤ ts.length := endsEOF_two hend hke
          have h3 := adv_len_lt h2
          exact ih ts2 (hend2 hend) (by omega) e0 hrec
        · simp at h

theorem tokenizeAux_ws : ∀ fuel (s : List Nat) off, s.length ≤ fuel →
    (∀ c ∈ s, isWS c = true) →
    tokenizeAux fuel s off = [⟨TokenKind.tokenEOF, [], off + s.length⟩] := by
  intro fuel
  induction fuel with
  | zero =>
    intro s off hlen _
    have : s = [] := List.length_eq_zero.mp (Nat.le_zero.mp hlen)
    subst this
    simp [tokenizeAux]
  | succ n ih =>
    intro s off hlen hws
    cases s with
    | nil => simp [tokenizeAux]
    | cons c rest =>
      have hc : isWS c = true := hws c (List.mem_cons_self c rest)
      simp only [tokenizeAux, hc, if_true]
      rw [ih rest (off + 1) (by simpa using hlen) (fun b hb => hws b (List.mem_cons_of_mem c hb))]
      have : off + 1 + rest.length = off + (c :: rest).length := by simp; omega
      rw [this]

/-- C7: parsing an input made only of whitespace bytes (space, tab, newline,
carriage return), including the empty input, yields the empty action sequence
and no error. -/
theorem c7_whitespace_empty (s : List Nat) (h : ∀ c ∈ s, isWS c = true) :
    Parse s = (some [], none) := by
  unfold Parse
  have ht : tokenize s 0 = [⟨TokenKind.tokenEOF, [], 0 + s.length⟩] :=
    tokenizeAux_ws s.length s 0 (le_refl _) h
  rw [ht]
  rfl

/-- Witness for c7_whitespace_empty at the spec examples: the empty script
and the all-whitespace script both parse to the empty sequence. -/
theorem c7_whitespace_empty_witness :
    Parse (bytes "") = (some [], none) ∧ Parse (bytes "   \t\n  ") = (some [], none) :=
  ⟨c7_whitespace_empty (bytes "") (by decide),
   c7_whitespace_empty (bytes "   \t\n  ") (by decide)⟩

/-- C8: Parse is all-or-nothing: for every input it returns either an action
sequence and no error, or an error and no (not even a truncated) action
sequence. -/
theorem c8_all_or_nothing (s : List Nat) :
    ((Parse s).2 = none ∧ ∃ acts, (Parse s).1 = some acts) ∨
    ((Parse s).1 = none ∧ ∃ e, (Parse s).2 = some e) := by
  unfold Parse
  split
  · exact Or.inl ⟨rfl, _, rfl⟩
  · exact Or.inr ⟨rfl, _, rfl⟩

/-- Counterexample to C3 as stated: Ctrl+AB parses successfully into a Ctrl
action whose key is the two-character string ab, not a single letter. -/
theorem c3_counterexample_ctrl_multichar :
    Parse (bytes "Ctrl+AB") = (some [{ Kind := .ActionCtrl, Key := bytes "ab" }], none) ∧
    (bytes "ab").length ≠ 1 := ⟨rfl, by decide⟩

/-- C3 amended: the key of every successfully parsed Ctrl action is the
lowercasing of whatever follows the five-byte ctrl+ prefix of the source
identifier token, which is a single lowercase letter when a single letter
follows but can also be empty, several characters, or digits; and the plain
single-letter form does produce that letter lowercased. -/
theorem c3_ctrl_key_amended :
    (∀ (s : List Nat) (acts : List Action), (Parse s).1 = some acts →
      ∀ a ∈ acts, a.Kind = ActionKind.ActionCtrl →
        ∃ t, t ∈ tokenize s 0 ∧ t.kind = TokenKind.tokenIdent ∧
          (bytes "ctrl+").isPrefixOf (goToLower t.literal) = true ∧
          a.Key = goToLower (t.literal.drop 5)) ∧
    Parse (bytes "Ctrl+C") = (some [{ Kind := .ActionCtrl, Key := bytes "c" }], none) := by
  constructor
  · intro s acts h a ha hk
    unfold Parse at h
    split at h
    · rename_i acts0 hl
      simp only [Option.some.injEq] at h
      subst h
      exact (parseLoop_ok_inv _ _ _ hl a ha).1 hk
    · simp at h
  · rfl

/-- Witness for c3_ctrl_key_amended: instantiating the universal part on the
script Ctrl+AB and its parsed Ctrl action. -/
theorem c3_ctrl_key_amended_witness :
    ∃ t, t ∈ tokenize (bytes "Ctrl+AB") 0 ∧ t.kind = TokenKind.tokenIdent ∧
      (bytes "ctrl+").isPrefixOf (goToLower t.literal) = true ∧
      ({ Kind := .ActionCtrl, Key := bytes "ab" } : Action).Key = goToLower (t.literal.drop 5) :=
  c3_ctrl_key_amended.1 (bytes "Ctrl+AB") [{ Kind := .ActionCtrl, Key := bytes "ab" }] rfl
    { Kind := .ActionCtrl, Key := bytes "ab" } (List.mem_singleton.mpr rfl) rfl

/-- Counterexample to C4 as stated: Down 0 parses successfully into a Key
action whose Repeat field is zero, violating Repeat at least one. -/
theorem c4_counterexample_repeat_zero :
    Parse (bytes "Down 0") =
      (some [{ Kind := .ActionKey, Key := bytes "Down", Repeat := 0 }], none) ∧
    ¬ (1 ≤ ({ Kind := .ActionKey, Key := bytes "Down", Repeat := 0 } : Action).Repeat) :=
  ⟨rfl, by decide⟩

/-- C4 amended: Repeat defaults to 1 when no count is written and an explicit
count is a non-negative integer, so every successfully parsed Key action has
Repeat at least zero (an explicit 0 is accepted; the executor clamps it). -/
theorem c4_repeat_nonneg_amended :
    (∀ (s : List Nat) (acts : List Action), (Parse s).1 = some acts →
      ∀ a ∈ acts, a.Kind = ActionKind.ActionKey → 0 ≤ a.Repeat) ∧
    Parse (bytes "Enter") =
      (some [{ Kind := .ActionKey, Key := bytes "Enter", Repeat := 1 }], none) := by
  constructor
  · intro s acts h a ha hk
    unfold Parse at h
    split at h
    · rename_i acts0 hl
      simp only [Option.some.injEq] at h
      subst h
      exact (parseLoop_ok_inv _ _ _ hl a ha).2 hk
    · simp at h
  · rfl

/-- Witness for c4_repeat_nonneg_amended: the universal part instantiated at
the script Down 0 and its parsed Key action. -/
theorem c4_repeat_nonneg_amended_witness :
    0 ≤ ({ Kind := .ActionKey, Key := bytes "Down", Repeat := 0 } : Action).Repeat :=
  c4_repeat_nonneg_amended.1 (bytes "Down 0")
    [{ Kind := .ActionKey, Key := bytes "Down", Repeat := 0 }] rfl
    { Kind := .ActionKey, Key := bytes "Down", Repeat := 0 } (List.mem_singleton.mpr rfl) rfl

/-- Counterexample to C5 as stated: the parse error for the unknown key Foo
renders with the prefix parse error at position, not as the bare
position %d: %s format the claim states. -/
theorem c5_counterexample_error_format :
    (Parse (bytes "Foo")).2 = some ⟨0, msgUnknownKey (bytes "Foo")⟩ ∧
    renderError ⟨0, msgUnknownKey (bytes "Foo")⟩ ≠
      bytes "position 0: " ++ msgUnknownKey (bytes "Foo") := by
  refine ⟨rfl, ?_⟩
  decide

/-- C5 amended: every parse failure renders as
parse error at position %d: %s with the zero-based byte offset of the
offending token, the message is one of the taxonomy messages, and the
unknown-key message carries the full enumerated valid-key list as a suffix. -/
theorem c5_error_format_amended (s : List Nat) (e : ParseError)
    (h : (Parse s).2 = some e) :
    renderError e = bytes "parse error at position " ++ natDecBytes e.Position ++
      bytes ": " ++ e.Message ∧
    Taxonomy e.Message ∧
    (∀ k, e.Message = msgUnknownKey k → validKeyListBytes.IsSuffix e.Message) := by
  refine ⟨rfl, ?_, ?_⟩
  · unfold Parse at h
    split at h
    · simp at h
    · rename_i e0 hl
      simp only [Option.some.injEq] at h
      subst h
      exact parseLoop_err_tax _ _ (tokenize_endsEOF s 0) (by omega) e0 hl
  · intro k hk
    rw [hk]
    exact ⟨bytes "unknown key " ++ goQuote k ++ bytes "; valid keys: ",
           by simp [msgUnknownKey, List.append_assoc]⟩

/-- Witness for c5_error_format_amended at the script Foo. -/
theorem c5_error_format_amended_witness :
    renderError ⟨0, msgUnknownKey (bytes "Foo")⟩ =
      bytes "parse error at position " ++ natDecBytes (0 : Nat) ++ bytes ": " ++
        msgUnknownKey (bytes "Foo") ∧
    Taxonomy (msgUnknownKey (bytes "Foo")) ∧
    (∀ k, msgUnknownKey (bytes "Foo") = msgUnknownKey k →
      validKeyListBytes.IsSuffix (msgUnknownKey (bytes "Foo"))) :=
  c5_error_format_amended (bytes "Foo") ⟨0, msgUnknownKey (bytes "Foo")⟩ rfl

theorem parseDuration_unitless {d : List Nat} (h1 : d ≠ []) (h2 : ∀ c ∈ d, goIsDigit c = true)
    (h3 : d ≠ [48]) : parseDuration d = .error () := by
  have ht : d.takeWhile goIsDigit = d := List.takeWhile_eq_self_iff.mpr h2
  unfold parseDuration
  rw [ht, List.drop_length]
  simp [h1, h3]

/-- Counterexample to C6 as stated: Sleep 0 has a bare unitless integer
argument yet parses successfully (time.ParseDuration treats the exact literal
0 as the zero duration), contradicting the claim that every unitless bare
integer is an InvalidDuration error. -/
theorem c6_counterexample_sleep_zero :
    Parse (bytes "Sleep 0") = (some [{ Kind := .ActionSleep }], none) ∧
    parseDuration (bytes "0") = .ok 0 := ⟨rfl, rfl⟩

/-- C6 amended: Sleep 500ms parses to a single 500ms Sleep action; Sleep 500
fails with the invalid-duration error; the exception is the exact literal 0,
which parses as a zero-duration Sleep; every other unitless digit run fails
duration parsing; and a Sleep action errors exactly when the argument token
is missing (not a duration or number token) or fails duration parsing. -/
theorem c6_sleep_parsing_amended :
    Parse (bytes "Sleep 500ms") =
      (some [{ Kind := .ActionSleep, Duration := 500000000 }], none) ∧
    Parse (bytes "Sleep 500") = (none, some ⟨6, msgInvalidDur (bytes "500")⟩) ∧
    Parse (bytes "Sleep 0") = (some [{ Kind := .ActionSleep }], none) ∧
    (∀ d : List Nat, d ≠ [] → (∀ c ∈ d, goIsDigit c = true) → d ≠ [48] →
      parseDuration d = .error ()) ∧
    (∀ ts : List Token,
      (∃ e, parseSleepAction ts = .error e) ↔
        (((curTok (adv ts)).kind ≠ TokenKind.tokenDuration ∧
          (curTok (adv ts)).kind ≠ TokenKind.tokenNumber) ∨
         parseDuration (curTok (adv ts)).literal = .error ())) := by
  refine ⟨rfl, rfl, rfl, fun d h1 h2 h3 => parseDuration_unitless h1 h2 h3, ?_⟩
  intro ts
  by_cases hcond : (curTok (adv ts)).kind ≠ TokenKind.tokenDuration ∧
      (curTok (adv ts)).kind ≠ TokenKind.tokenNumber
  · constructor
    · intro _
      exact Or.inl hcond
    · intro _
      exact ⟨⟨(curTok (adv ts)).position, msgExpectedDurSleep⟩, by
        unfold parseSleepAction
        rw [if_pos hcond]⟩
  · cases heq : parseDuration (curTok (adv ts)).literal with
    | error u =>
      constructor
      · intro _
        exact Or.inr (by cases u; rfl)
      · intro _
        refine ⟨⟨(curTok (adv ts)).position, msgInvalidDur (curTok (adv ts)).literal⟩, ?_⟩
        unfold parseSleepAction
        rw [if_neg hcond, heq]
    | ok dv =>
      constructor
      · rintro ⟨e, he⟩
        unfold parseSleepAction at he
        rw [if_neg hcond, heq] at he
        simp at he
      · intro hor
        rcases hor with hcond2 | hdur
        · exact absurd hcond2 hcond
        · simp at hdur

/-- The KEYNAME set of the grammar production in the specification,
lowercased for the case-insensitive comparison. -/
def specKeyNames : List (List Nat) :=
  [bytes "enter", bytes "tab", bytes "escape", bytes "space", bytes "backspace",
   bytes "delete", bytes "up", bytes "down", bytes "left", bytes "right",
   bytes "home", bytes "end", bytes "pageup", bytes "pagedown"]

theorem isAlphanumeric_one {k : List Nat} (h : isAlphanumeric k = true) : k.length = 1 := by
  match k with
  | [] => simp [isAlphanumeric] at h
  | [c] => rfl
  | a :: b :: r => simp [isAlphanumeric] at h

/-- Counterexample to C2 as stated: the parser-side valid-key predicate accepts
Space, PageUp and PageDown while the engine-side KeyToKeyCode fails on them,
so the two key tables do not agree on the enumerated KEYNAME set. -/
theorem c2_counterexample_space_unmapped :
    isValidKey (bytes "Space") = true ∧ KeyToKeyCode (bytes "Space") = .error () ∧
    isValidKey (bytes "PageUp") = true ∧ KeyToKeyCode (bytes "PageUp") = .error () ∧
    isValidKey (bytes "PageDown") = true ∧ KeyToKeyCode (bytes "PageDown") = .error () :=
  ⟨rfl, rfl, rfl, rfl, rfl, rfl⟩

/-- C2 amended: for every key name whose lowercasing is in the enumerated
KEYNAME set, the parser-side valid-key predicate accepts it, and the engine-side
key-code mapping succeeds on it exactly when the name is not Space, PageUp or
PageDown: the two tables agree on the other eleven names and disagree on
those three, which parse but cannot be dispatched. -/
theorem c2_key_tables_amended (k : List Nat) (h : goToLower k ∈ specKeyNames) :
    isValidKey k = true ∧
    ((KeyToKeyCode k).isOk = true ↔
      (goToLower k ≠ bytes "space" ∧ goToLower k ≠ bytes "pageup" ∧
       goToLower k ≠ bytes "pagedown")) := by
  have hlen : (goToLower k).length = k.length := List.length_map _ _
  simp only [specKeyNames, List.mem_cons, List.not_mem_nil, or_false] at h
  rcases h with h|h|h|h|h|h|h|h|h|h|h|h|h|h <;>
  · have hlen2 : 2 ≤ k.length := by
      rw [← hlen, h]
      decide
    have halpha : isAlphanumeric k = false := by
      cases hh : isAlphanumeric k
      · rfl
      · exact absurd (isAlphanumeric_one hh) (by omega)
    have hkk : KeyToKeyCode k =
        (match specialKeyMap.lookup (goToLower k) with
         | some code => Except.ok code
         | none => Except.error ()) := by
      unfold KeyToKeyCode
      rw [if_neg (by simp [halpha])]
    constructor
    · simp only [isValidKey]
      rw [h]
      decide
    · rw [hkk, h]
      decide

/-- Witness for c2_key_tables_amended at the mixed-case name Enter. -/
theorem c2_key_tables_amended_witness :
    isValidKey (bytes "Enter") = true ∧
    ((KeyToKeyCode (bytes "Enter")).isOk = true ↔
      (goToLower (bytes "Enter") ≠ bytes "space" ∧
       goToLower (bytes "Enter") ≠ bytes "pageup" ∧
       goToLower (bytes "Enter") ≠ bytes "pagedown")) :=
  c2_key_tables_amended (bytes "Enter") (by decide)

/-- Ghost index of an engine error: the action being executed when it arose. -/
def EngErr.eidx : EngErr → Nat
  | .cancelled i => i
  | .dispatch i => i

/-- Frame property of one engine step executing action idx: the log only
grows by calls tagged idx, and an error is tagged idx as well. -/
def Frame (idx : Nat) (st : EngSt) : Except (EngErr × EngSt) EngSt → Prop
  | .ok st2 => ∃ tl, st2.log = st.log ++ tl ∧ ∀ c ∈ tl, c.aidx = idx
  | .error (e, st2) => e.eidx = idx ∧ ∃ tl, st2.log = st.log ++ tl ∧ ∀ c ∈ tl, c.aidx = idx

theorem frame_trans {idx : Nat} {st st1 : EngSt} {r : Except (EngErr × EngSt) EngSt}
    {tl0 : List RendCall} (hlog : st1.log = st.log ++ tl0) (htl0 : ∀ c ∈ tl0, c.aidx = idx)
    (h : Frame idx st1 r) : Frame idx st r := by
  cases r with
  | ok st2 =>
    obtain ⟨tl, h1, h2⟩ := h
    refine ⟨tl0 ++ tl, by rw [h1, hlog, List.append_assoc], ?_⟩
    intro c hc
    rcases List.mem_append.mp hc with hc | hc
    · exact htl0 c hc
    · exact h2 c hc
  | error es =>
    obtain ⟨e, st2⟩ := es
    obtain ⟨he, tl, h1, h2⟩ := h
    refine ⟨he, tl0 ++ tl, by rw [h1, hlog, List.append_assoc], ?_⟩
    intro c hc
    rcases List.mem_append.mp hc with hc | hc
    · exact htl0 c hc
    · exact h2 c hc

theorem frame_ok_self {idx : Nat} {st : EngSt} : Frame idx st (.ok st) :=
  ⟨[], by simp, by simp⟩

theorem frame_ebind {idx : Nat} {st : EngSt} {r : Except (EngErr × EngSt) EngSt}
    {g : EngSt → Except (EngErr × EngSt) EngSt} (h1 : Frame idx st r)
    (h2 : ∀ st1, Frame idx st1 (g st1)) : Frame idx st (ebind r g) := by
  cases r with
  | ok st1 =>
    obtain ⟨tl, hl, ht⟩ := h1
    exact frame_trans hl ht (h2 st1)
  | error es => exact h1

theorem frame_ckpt {cfg : EngCfg} {st : EngSt} {idx : Nat} :
    Frame idx st (ckpt cfg st idx) := by
  unfold ckpt
  split
  · exact ⟨rfl, [], by simp, by simp⟩
  · exact ⟨[], by simp, by simp⟩

theorem frame_rendCall {cfg : EngCfg} {st : EngSt} {idx : Nat} {call : RendCall}
    (h : call.aidx = idx) : Frame idx st (rendCall cfg st idx call) := by
  unfold rendCall
  split
  · exact ⟨[call], by simp, by simpa using h⟩
  · exact ⟨rfl, [call], by simp, by simpa using h⟩

theorem frame_sendCtrl {cfg : EngCfg} {st : EngSt} {idx : Nat} {key : List Nat} :
    Frame idx st (sendCtrlKeypress cfg st idx key) := by
  unfold sendCtrlKeypress
  split
  · exact ⟨rfl, [], by simp, by simp⟩
  · exact frame_rendCall rfl

theorem frame_send {cfg : EngCfg} {st : EngSt} {idx : Nat} {key : List Nat} :
    Frame idx st (sendKeypress cfg st idx key) := by
  unfold sendKeypress
  split
  · exact frame_sendCtrl
  · split
    · exact ⟨rfl, [], by simp, by simp⟩
    · exact frame_rendCall rfl

theorem frame_typeChars {cfg : EngCfg} {idx : Nat} {speed : Int} :
    ∀ (chs : List Nat) (st : EngSt), Frame idx st (typeChars cfg idx speed chs st) := by
  intro chs
  induction chs with
  | nil => intro st; exact frame_ok_self
  | cons ch more ih =>
    intro st
    unfold typeChars
    refine frame_ebind frame_ckpt (fun st1 => frame_ebind frame_send (fun st2 => ?_))
    split
    · exact frame_ebind frame_ckpt (fun st3 => ih st3)
    · exact ih st2

theorem frame_postDelay {cfg : EngCfg} {st : EngSt} {idx : Nat} {d : Int} :
    Frame idx st (if 0 < d then ckpt cfg st idx else .ok st) := by
  split
  · exact frame_ckpt
  · exact frame_ok_self

theorem frame_executeType {cfg : EngCfg} {idx : Nat} {a : Action} {st : EngSt} :
    Frame idx st (executeTypeAction cfg idx a st) := by
  unfold executeTypeAction
  exact frame_ebind (frame_typeChars a.Text st) (fun st1 => frame_postDelay)

theorem frame_keyReps {cfg : EngCfg} {idx : Nat} {key : List Nat} :
    ∀ (n : Nat) (st : EngSt), Frame idx st (keyReps cfg idx key n st) := by
  intro n
  induction n with
  | zero => intro st; exact frame_ok_self
  | succ m ih =>
    intro st
    unfold keyReps
    exact frame_ebind frame_ckpt (fun st1 => frame_ebind frame_send (fun st2 => ih st2))

theorem frame_executeKey {cfg : EngCfg} {idx : Nat} {a : Action} {st : EngSt} :
    Frame idx st (executeKeyAction cfg idx a st) := by
  unfold executeKeyAction
  exact frame_ebind (frame_keyReps _ st) (fun st1 => frame_postDelay)

theorem frame_executeSingle {cfg : EngCfg} {idx : Nat} {a : Action} {st : EngSt} :
    Frame idx st (executeSingleAction cfg idx a st) := by
  unfold executeSingleAction
  cases a.Kind with
  | ActionType => exact frame_executeType
  | ActionSleep => exact frame_ckpt
  | ActionKey => exact frame_executeKey
  | ActionCtrl => exact frame_sendCtrl

theorem execFrom_cancelled {cfg : EngCfg} :
    ∀ (acts : List Action) (idx : Nat) (st : EngSt) (i : Nat) (st2 : EngSt),
      execFrom cfg acts idx st = .error (.cancelled i, st2) →
      idx ≤ i ∧ ∀ c ∈ st2.log, c ∈ st.log ∨ c.aidx ≤ i := by
  intro acts
  induction acts with
  | nil =>
    intro idx st i st2 h
    simp [execFrom] at h
  | cons a rest ih =>
    intro idx st i st2 h
    unfold execFrom at h
    cases heq : executeSingleAction cfg idx a st with
    | error es =>
      rw [heq] at h
      simp only [ebind, Except.error.injEq] at h
      subst h
      have hf := @frame_executeSingle cfg idx a st
      rw [heq] at hf
      obtain ⟨he, tl, h1, h2⟩ := hf
      have hi : i = idx := by simpa [EngErr.eidx] using he
      subst hi
      refine ⟨le_refl _, ?_⟩
      intro c hc
      rw [h1] at hc
      rcases List.mem_append.mp hc with hc | hc
      · exact Or.inl hc
      · exact Or.inr (le_of_eq (h2 c hc))
    | ok st1 =>
      rw [heq] at h
      simp only [ebind] at h
      obtain ⟨hle, hlog⟩ := ih (idx + 1) st1 i st2 h
      have hf := @frame_executeSingle cfg idx a st
      rw [heq] at hf
      obtain ⟨tl, h1, h2⟩ := hf
      refine ⟨by omega, ?_⟩
      intro c hc
      rcases hlog c hc with hc1 | hc1
      · rw [h1] at hc1
        rcases List.mem_append.mp hc1 with hc2 | hc2
        · exact Or.inl hc2
        · exact Or.inr (by have := h2 c hc2; omega)
      · exact Or.inr hc1

/-- C9: whenever the engine run of an action sequence returns the
cancellation error, interrupted inside action i (every cancellable wait and
pre-dispatch check sits inside some action), the renderer log contains no
call for any action after the interrupted one. -/
theorem c9_cancellation_stops_dispatch (cfg : EngCfg) (acts : List Action) (i : Nat)
    (st2 : EngSt) (h : executeActions cfg acts = .error (.cancelled i, st2)) :
    ∀ c ∈ st2.log, c.aidx ≤ i := by
  intro c hc
  rcases (execFrom_cancelled acts 0 {} i st2 h).2 c hc with h1 | h1
  · simp at h1
  · exact h1

/-- Witness for c9_cancellation_stops_dispatch at the spec scenario: for the
sequence Sleep 1s, Type ls -la, Key Enter, Sleep 500ms with the context
cancelled during the first Sleep wait, the run returns the cancellation error
in action 0 and the renderer log stays empty. -/
theorem c9_cancellation_stops_dispatch_witness :
    executeActions ⟨fun _ => true, fun _ => true⟩
        [{ Kind := .ActionSleep, Duration := 1000000000 },
         { Kind := .ActionType, Text := bytes "ls -la", Speed := 50000000 },
         { Kind := .ActionKey, Key := bytes "Enter", Repeat := 1 },
         { Kind := .ActionSleep, Duration := 500000000 }] =
      .error (.cancelled 0, ⟨1, 0, []⟩) ∧
    ∀ c ∈ (⟨1, 0, []⟩ : EngSt).log, c.aidx ≤ 0 :=
  ⟨rfl, c9_cancellation_stops_dispatch ⟨fun _ => true, fun _ => true⟩
    [{ Kind := .ActionSleep, Duration := 1000000000 },
     { Kind := .ActionType, Text := bytes "ls -la", Speed := 50000000 },
     { Kind := .ActionKey, Key := bytes "Enter", Repeat := 1 },
     { Kind := .ActionSleep, Duration := 500000000 }] 0 ⟨1, 0, []⟩ rfl⟩

theorem keyReps_ok {cfg : EngCfg} {idx : Nat} {key code : List Nat}
    (hc : ∀ n, cfg.cancelled n = false) (hr : ∀ n, cfg.rendOk n = true)
    (hctrl : isCtrlKey key = false) (hmap : KeyToKeyCode key = .ok code) :
    ∀ (n : Nat) (st : EngSt), ∃ st2, keyReps cfg idx key n st = .ok st2 ∧
      st2.log.length = st.log.length + n := by
  intro n
  induction n with
  | zero => intro st; exact ⟨st, rfl, by simp⟩
  | succ m ih =>
    intro st
    have hck : ckpt cfg st idx = .ok { st with cp := st.cp + 1 } := by
      unfold ckpt
      rw [if_neg (by simp [hc])]
    have hsend : sendKeypress cfg { st with cp := st.cp + 1 } idx key =
        .ok { st with cp := st.cp + 1, rc := st.rc + 1,
                      log := st.log ++ [RendCall.keyEvent idx code] } := by
      simp [sendKeypress, hctrl, hmap, rendCall, hr]
    obtain ⟨st2, hrec, hlen⟩ := ih { st with cp := st.cp + 1, rc := st.rc + 1,
                                             log := st.log ++ [RendCall.keyEvent idx code] }
    refine ⟨st2, ?_, ?_⟩
    · unfold keyReps
      rw [hck]
      simp only [ebind]
      rw [hsend]
      simp only [ebind]
      exact hrec
    · rw [hlen]
      simp only [List.length_append, List.length_singleton]
      omega

/-- C10: when the engine executes a Key action under a context that never
fires and a renderer that never fails, on a key the key-code table does map,
the number of renderer dispatches equals max(Repeat, 1): in particular a
Repeat of zero or less is clamped and dispatches exactly once. -/
theorem c10_repeat_clamp (cfg : EngCfg) (idx : Nat) (a : Action) (st : EngSt)
    (code : List Nat) (hkind : a.Kind = ActionKind.ActionKey)
    (hc : ∀ n, cfg.cancelled n = false) (hr : ∀ n, cfg.rendOk n = true)
    (hctrl : isCtrlKey a.Key = false) (hmap : KeyToKeyCode a.Key = .ok code) :
    ∃ st2, executeSingleAction cfg idx a st = .ok st2 ∧
      st2.log.length = st.log.length + (max a.Repeat 1).toNat := by
  have hrep : (if a.Repeat ≤ 0 then (1 : Int) else a.Repeat).toNat = (max a.Repeat 1).toNat := by
    rcases le_or_lt a.Repeat 0 with h | h
    · rw [if_pos h, max_eq_right (by omega : a.Repeat ≤ (1 : Int))]
    · rw [if_neg (by omega), max_eq_left (by omega : (1 : Int) ≤ a.Repeat)]
  obtain ⟨st1, hk, hlen⟩ := keyReps_ok hc hr hctrl hmap
    (if a.Repeat ≤ 0 then (1 : Int) else a.Repeat).toNat st
  refine ⟨if 0 < a.Delay then { st1 with cp := st1.cp + 1 } else st1, ?_, ?_⟩
  · simp only [executeSingleAction, hkind]
    unfold executeKeyAction
    rw [hk]
    simp only [ebind]
    split
    · unfold ckpt
      rw [if_neg (by simp [hc])]
    · rfl
  · split <;> rw [hlen, hrep]

/-- Witness for c10_repeat_clamp: a Key action with Repeat zero dispatches
exactly once. -/
theorem c10_repeat_clamp_witness :
    ∃ st2, executeSingleAction ⟨fun _ => false, fun _ => true⟩ 0
        { Kind := .ActionKey, Key := bytes "Enter", Repeat := 0 } {} = .ok st2 ∧
      st2.log.length = ({} : EngSt).log.length +
        (max ({ Kind := .ActionKey, Key := bytes "Enter", Repeat := 0 } : Action).Repeat 1).toNat :=
  c10_repeat_clamp ⟨fun _ => false, fun _ => true⟩ 0
    { Kind := .ActionKey, Key := bytes "Enter", Repeat := 0 } {} (bytes "Enter")
    rfl (fun _ => rfl) (fun _ => rfl) (by decide) rfl

/-- C1 (code bug): the per-character key-code lookup of the engine fails on
the space character and on punctuation such as the dash, because
isAlphanumeric admits only letters and digits and specialKeyMap has no space
entry; consequently executing Type ls -la (which parses fine) dispatches l
and s and then aborts with a dispatch error at the space, instead of mapping
space to the canonical Space key as the specification states. -/
theorem c1_space_key_lookup_fails :
    KeyToKeyCode (bytes " ") = .error () ∧
    KeyToKeyCode (bytes "-") = .error () ∧
    Parse (bytes "Type " ++ [39] ++ bytes "ls -la" ++ [39]) =
      (some [{ Kind := .ActionType, Text := bytes "ls -la", Speed := 50000000 }], none) ∧
    executeActions ⟨fun _ => false, fun _ => true⟩
        [{ Kind := .ActionType, Text := bytes "ls -la", Speed := 50000000 }] =
      .error (.dispatch 0, ⟨5, 2, [.keyEvent 0 (bytes "l"), .keyEvent 0 (bytes "s")]⟩) :=
  ⟨rfl, rfl, rfl, rfl⟩

/-- Witness for c6_sleep_parsing_amended: the unitless digit literal 77
instantiates the universal unitless-integer component. -/
theorem c6_sleep_parsing_amended_witness :
    parseDuration (bytes "77") = .error () :=
  c6_sleep_parsing_amended.2.2.2.1 (bytes "77") (by decide) (by decide) (by decide)

end Scr
